import Mathlib

/-!
Shallow embedding of `aptamers_mlpd/search/walkers.py`: the `Mutant` value
class, the `mutate_seq` point-mutation routine, the `SamplingWalker` greedy
per-seed search and the `GeneticWalker` population search, together with the
theorems checking the repository specification against this code.

Randomness is embedded as explicit entropy streams.  Each walker owns a
`numpy.random.RandomState` (the stream `w` below, seeded from the constructor
argument `random_seed`), but the module also calls `random.randint` from the
process-global `random` module; that global generator is embedded as a second,
separately threaded stream `g`.  Python exceptions are embedded as an
`Except` error channel.
-/

namespace Walkers

/-- Entropy stream backing a pseudorandom generator: a list of raw draws,
read left to right (0 when exhausted). -/
abbrev Rng : Type := List Nat

/-- Next raw draw of the stream. -/
def Rng.peek (s : Rng) : Nat := List.headD s 0

/-- Stream after consuming one draw. -/
def Rng.next (s : Rng) : Rng := List.tail s

/-- Modelled from the spec: `dna.DNA_BASES`, the fixed DNA alphabet
\x7bA, C, G, T\x7d, lives in `aptamers_mlpd/utils/dna.py` which is not part of
the sources; the spec fixes the alphabet to these four symbols. -/
def DNA_BASES : List Char := ['A', 'C', 'G', 'T']

/-- Model of `random.randint(lo, hi)` / drawing an integer in `[lo, hi]`
(both ends inclusive): one draw is consumed and mapped into the range. -/
def randintStep (lo hi : Nat) (g : Rng) : Nat × Rng :=
  (lo + g.peek % (hi + 1 - lo), g.next)

/-- Model of `numpy.random.RandomState.choice` on a non-empty list of
symbols: one draw selects the index. -/
def choiceChar (l : List Char) (w : Rng) : Char × Rng :=
  (l.getD (w.peek % l.length) 'A', w.next)

/-- Model of `numpy.random.RandomState.shuffle`: an entropy-driven
permutation, built by repeatedly drawing the next element from what remains
(`fuel` bounds the recursion by the list length). -/
def shuffleGo : Nat → List Nat → Rng → List Nat × Rng
  | 0, l, w => (l, w)
  | fuel + 1, l, w =>
    match l with
    | [] => ([], w)
    | x :: xs =>
      let j := w.peek % (x :: xs).length
      let picked := (x :: xs).getD j 0
      let (rest, w') := shuffleGo fuel ((x :: xs).eraseIdx j) w.next
      (picked :: rest, w')

/-- Entry point of the shuffle model. -/
def npShuffle (l : List Nat) (w : Rng) : List Nat × Rng :=
  shuffleGo l.length l w

/-- Inner loop of `mutate_seq`: `for i in mutation_positions:` replace the
base at `i` by a `random_state.choice` over the bases differing from the
current one. -/
def mutateBases : List Nat → List Char → Rng → List Char × Rng
  | [], cur, w => (cur, w)
  | i :: rest, cur, w =>
    let c := cur.getD i ' '
    let (nb, w') := choiceChar (DNA_BASES.filter (fun b => b ≠ c)) w
    mutateBases rest (cur.set i nb) w'

/-- Embedding of `mutate_seq(seq, num_mutations, random_state)`
(walkers.py:68-100): shuffle the position list, take the first
`num_mutations` positions, and substitute a different base at each. -/
def mutateSeq (seq : String) (numMutations : Nat) (w : Rng) : String × Rng :=
  let (positionList, w1) := npShuffle (List.range seq.length) w
  let mutationPositions := positionList.take numMutations
  let (newBaseList, w2) := mutateBases mutationPositions seq.data w1
  (String.mk newBaseList, w2)

/-- Number of positions (of the first list's index range) where two
character lists disagree: the Hamming distance for equal-length lists. -/
def countDiff (s t : List Char) : Nat :=
  (List.range s.length).countP (fun i => s.getD i ' ' ≠ t.getD i ' ')

/-- Python exceptions reachable from `walkers.py`, plus the three error
classes the specification names.  The first six model built-in Python
exceptions: `ValueError` from `max()` / `numpy.random.choice`,
`ZeroDivisionError` from `attempts % len(parents)` with an empty parent
list, `IndexError` from indexing a too-short score list, and `TypeError`
from arithmetic on a `None` score.  The last three are modelled from the
spec: the spec names `ConfigurationError`, `InvalidMutationDistance` and
`ScoringMismatch` error classes, but no such classes exist in the source
(`walkers.py` defines only a generic `Error`), so they are carried as
constructors that the embedded code never produces. -/
inductive Err where
  | valueErrorMaxEmpty
  | valueErrorBadProbabilities
  | valueErrorSampleTooLarge
  | zeroDivisionError
  | indexError
  | typeError
  | configurationError
  | invalidMutationDistance
  | scoringMismatch
  deriving DecidableEq

/-- Embedding of the `Mutant` class (walkers.py:35-54): a sequence with its
lineage and score.  The Python class hashes and compares by `sequence`
alone; the set semantics this induces is modelled explicitly in
`addMutant`.  A score of `none` models Python `None`. -/
structure Mutant where
  sequence : String
  parent : String
  seed : String
  score : Option ℚ
  deriving DecidableEq

/-- Fallback element for list indexing (never observed by the claims). -/
def defaultMutant : Mutant := ⟨"", "", "", none⟩

/-- Sort key used by `sort_by_score`: the numeric score (all call sites sort
fully scored collections, so the `none` default is never compared). -/
def scoreKey (m : Mutant) : ℚ := m.score.getD 0

/-- Stable descending insertion used by `sortByScore`. -/
def insertByScore (m : Mutant) : List Mutant → List Mutant
  | [] => [m]
  | x :: xs => if scoreKey x ≤ scoreKey m then m :: x :: xs else x :: insertByScore m xs

/-- Embedding of `sort_by_score` (walkers.py:57-66): stable sort by score
descending, as Python `sorted(key=..., reverse=True)`. -/
def sortByScore : List Mutant → List Mutant
  | [] => []
  | x :: xs => insertByScore x (sortByScore xs)

/-- Model of `numpy.random.RandomState.rand(n)`: `n` entropy draws mapped
into rational values of `[0, 1)`; used when no inferer is configured. -/
def npRand : Nat → Rng → List ℚ × Rng
  | 0, w => ([], w)
  | n + 1, w =>
    (((w.peek % 1000 : ℕ) : ℚ) / 1000 :: (npRand n w.next).1, (npRand n w.next).2)

/-- Generated-record kind set by each walker (`search_pb2.METHOD_...`). -/
inductive MethodType where
  | simpleSampling
  | geneticAlgorithm
  deriving DecidableEq

/-- Modelled from the spec: the Emitter record built by
`search.create_choice_pb` (module `aptamers_mlpd/search/search.py`, not in
the sources).  Per the spec the core depends only on the call signature, so
the record carries the call's arguments verbatim; the `source_kind` and
`control_kind` arguments are the fixed constants `SOURCE_INVENTED` and
`NOT_CONTROL` at every call site and are omitted. -/
structure Choice where
  sequence : String
  mutationStep : Nat
  previousSequence : String
  seedSequence : String
  modelScore : Option ℚ
  modelName : String
  mutationType : MethodType
  deriving DecidableEq

/-- Model of `search.create_choice_pb` as used by both walkers. -/
def createChoicePb (sequence : String) (mutationStep : Nat)
    (previousSequence seedSequence : String) (modelScore : Option ℚ)
    (modelName : String) (mutationType : MethodType) : Choice :=
  ⟨sequence, mutationStep, previousSequence, seedSequence, modelScore,
    modelName, mutationType⟩

/-- Scoring oracle interface: `inferer.get_affinities_for_sequences(seqs,
target)`, a deterministic batch scorer. -/
abbrev Oracle : Type := List String → String → List ℚ

/-- Lookup `generation_counts[i]` with the `i in generation_counts`
membership default of 0 (walkers.py:208-211). -/
def requestedAt (counts : List (Nat × Nat)) (i : Nat) : Nat :=
  match counts.find? (fun kv => kv.1 = i) with
  | some kv => kv.2
  | none => 0

/-- Membership test `i in generation_counts`. -/
def hasGen (counts : List (Nat × Nat)) (i : Nat) : Bool :=
  counts.any (fun kv => kv.1 = i)

/-- Model of Python `max(generation_counts)`: the largest key, raising
`ValueError` on an empty mapping. -/
def maxKey (counts : List (Nat × Nat)) : Except Err Nat :=
  match counts.map (fun kv => kv.1) with
  | [] => .error .valueErrorMaxEmpty
  | k :: ks => .ok (ks.foldl max k)

/-- Constructor configuration of `SamplingWalker` (walkers.py:122-165).
The owned `numpy.random.RandomState(random_seed)` is passed to the run
functions as the walker entropy stream `w`. -/
structure SamplingConfig where
  oracle : Option Oracle
  modelName : String
  targetMol : String
  samplingLimit : Nat
  maxTrials : Nat
  nParents : Nat
  minDistance : Nat
  maxDistance : Nat

/-- Python `set.add` keyed on `sequence` (Mutant equality/hash): the set
keeps the first mutant inserted for a given sequence. -/
def addMutant (s : List Mutant) (m : Mutant) : List Mutant :=
  if s.any (fun x => x.sequence = m.sequence) then s else s ++ [m]

/-- Embedding of the sampling loop of `SamplingWalker.one_generation`
(walkers.py:250-261): `while len(mutant_set) < sampling_limit and attempts
< max_trials`.  The fuel argument is `max_trials - attempts`, so fuel 0 is
exactly the exhausted-trials exit.  `attempts % len(parents)` with an empty
parent list is Python `ZeroDivisionError`. -/
def collectLoop (cfg : SamplingConfig) :
    Nat → List Mutant → List String → List Mutant → Nat → Rng → Rng →
    Except Err (List Mutant × Rng × Rng)
  | 0, _, _, mutantSet, _, w, g => .ok (mutantSet, w, g)
  | fuel + 1, parents, toAvoid, mutantSet, attempts, w, g =>
    if mutantSet.length < cfg.samplingLimit then
      if parents.length = 0 then .error .zeroDivisionError
      else
        let parent := parents.getD ((attempts + 1) % parents.length) defaultMutant
        let distance := (randintStep cfg.minDistance cfg.maxDistance g).1
        let g' := (randintStep cfg.minDistance cfg.maxDistance g).2
        let mutantSeq := (mutateSeq parent.sequence distance w).1
        let w' := (mutateSeq parent.sequence distance w).2
        let mutantSet' :=
          if mutantSeq ∈ toAvoid then mutantSet
          else addMutant mutantSet ⟨mutantSeq, parent.sequence, parent.seed, some 100000⟩
        collectLoop cfg fuel parents toAvoid mutantSet' (attempts + 1) w' g'
    else .ok (mutantSet, w, g)

/-- Embedding of the score-assignment loop (walkers.py:271-273):
`mutant.score = mutant_scores[mutant_seqs.index(mutant.sequence)]`.  Since
set members have pairwise distinct sequences, mutant `i` receives score
`i`; a score list shorter than the set raises `IndexError`, extra scores
are silently ignored. -/
def assignScores (mutantSet : List Mutant) (scores : List ℚ) :
    Except Err (List Mutant) :=
  if mutantSet.length ≤ scores.length then
    .ok ((mutantSet.zip scores).map
      (fun mq => ⟨mq.1.sequence, mq.1.parent, mq.1.seed, some mq.2⟩))
  else .error .indexError

/-- Embedding of `SamplingWalker.one_generation` (walkers.py:233-280):
collect up to `sampling_limit` distinct unseen mutants, score them in one
batch (oracle or `RandomState.rand` fallback), sort descending and return
the top `n_sequences`. -/
def oneGeneration (cfg : SamplingConfig) (nSequences : Nat) (parents : List Mutant)
    (toAvoid : List String) (w g : Rng) : Except Err (List Mutant × Rng × Rng) :=
  match collectLoop cfg cfg.maxTrials parents toAvoid [] 0 w g with
  | .error e => .error e
  | .ok (mutantSet, w1, g1) =>
    let scoresW : List ℚ × Rng :=
      match cfg.oracle with
      | some f => (f (mutantSet.map (fun x => x.sequence)) cfg.targetMol, w1)
      | none => npRand (mutantSet.map (fun x => x.sequence)).length w1
    match assignScores mutantSet scoresW.1 with
    | .error e => .error e
    | .ok scored => .ok ((sortByScore scored).take nSequences, scoresW.2, g1)

/-- Embedding of the generation loop of
`SamplingWalker.generate_one_seed_mutants` (walkers.py:206-229): iterate
`i` upward, keeping `max(requested, n_parents)` mutants, emitting the top
`requested_count_at(i)` as records tagged `mutation_step = i + 1`, adding
emitted sequences to the visited set, and promoting the top `n_parents`
to parents.  Returns the records of iterations `i, i+1, ...` in order. -/
def seedGenLoop (cfg : SamplingConfig) (counts : List (Nat × Nat)) :
    Nat → Nat → List Mutant → List String → Rng → Rng →
    Except Err (List Choice × Rng × Rng)
  | 0, _, _, _, w, g => .ok ([], w, g)
  | fuel + 1, i, parents, selected, w, g =>
    match oneGeneration cfg (max (requestedAt counts i) cfg.nParents) parents selected w g with
    | .error e => .error e
    | .ok (mutants, w1, g1) =>
      match seedGenLoop cfg counts fuel (i + 1) (mutants.take cfg.nParents)
          (selected ++ (mutants.take (requestedAt counts i)).map (fun m => m.sequence))
          w1 g1 with
      | .error e => .error e
      | .ok (rest, w2, g2) =>
        .ok ((mutants.take (requestedAt counts i)).map (fun m =>
          createChoicePb m.sequence (i + 1) m.parent m.seed m.score cfg.modelName
            MethodType.simpleSampling) ++ rest, w2, g2)

/-- Embedding of `SamplingWalker.generate_one_seed_mutants`
(walkers.py:188-231): visited set starts as the seed, parents start as the
unscored seed mutant, and the loop runs for `max(generation_counts) + 1`
generations (`ValueError` when the mapping is empty). -/
def generateOneSeedMutants (cfg : SamplingConfig) (seed : String)
    (counts : List (Nat × Nat)) (w g : Rng) : Except Err (List Choice × Rng × Rng) :=
  match maxKey counts with
  | .error e => .error e
  | .ok mx => seedGenLoop cfg counts (mx + 1) 0 [⟨seed, seed, seed, none⟩] [seed] w g

/-- Per-seed loop of `SamplingWalker.generate_mutants` (walkers.py:167-186). -/
def samplingSeedsLoop (cfg : SamplingConfig) (counts : List (Nat × Nat)) :
    List String → Rng → Rng → Except Err (List Choice × Rng × Rng)
  | [], w, g => .ok ([], w, g)
  | s :: ss, w, g =>
    match generateOneSeedMutants cfg s counts w g with
    | .error e => .error e
    | .ok (ps, w1, g1) =>
      match samplingSeedsLoop cfg counts ss w1 g1 with
      | .error e => .error e
      | .ok (rest, w2, g2) => .ok (ps ++ rest, w2, g2)

/-- Embedding of `SamplingWalker.generate_mutants`: all accepted records
across seeds.  `w` is the walker's own seeded `RandomState` stream; `g` is
the state of the process-global `random` module, which
`one_generation` consumes through `random.randint`. -/
def samplingGenerateMutants (cfg : SamplingConfig) (seeds : List String)
    (counts : List (Nat × Nat)) (w g : Rng) : Except Err (List Choice) :=
  (samplingSeedsLoop cfg counts seeds w g).map (fun r => r.1)

/-- Constructor configuration of `GeneticWalker` (walkers.py:283-340). -/
structure GeneticConfig where
  oracle : Option Oracle
  modelName : String
  targetMol : String
  nPossibleParents : Nat
  nParents : Nat
  minDistance : Nat
  maxDistance : Nat

/-- Python `min` over a non-empty list (the empty default is never read:
the comprehension computing the shifted scores is itself empty then). -/
def listMinD : List ℚ → ℚ
  | [] => 0
  | x :: xs => xs.foldl min x

/-- Shift constant `epsilon = 1e-5` of `make_children`. -/
def epsilon : ℚ := 1 / 100000

/-- Shifted scores of `make_children`: `x - min(raw_scores) + epsilon`. -/
def shiftedScores (rawScores : List ℚ) : List ℚ :=
  rawScores.map (fun x => x - listMinD rawScores + epsilon)

/-- Embedding of the selection weights of `GeneticWalker.make_children`
(walkers.py:396-399): raw score minus pool minimum plus epsilon,
normalized by the sum. -/
def selectionWeights (rawScores : List ℚ) : List ℚ :=
  (shiftedScores rawScores).map (fun x => x / (shiftedScores rawScores).sum)

/-- Entropy-driven selection of `n` elements without replacement. -/
def pickNoReplace : Nat → List Mutant → Rng → List Mutant × Rng
  | 0, _, w => ([], w)
  | n + 1, pool, w =>
    match pool with
    | [] => ([], w)
    | p :: ps =>
      let j := w.peek % (p :: ps).length
      let x := (p :: ps).getD j defaultMutant
      let (rest, w') := pickNoReplace n ((p :: ps).eraseIdx j) w.next
      (x :: rest, w')

/-- Model of `numpy.random.choice(a, size, replace=False, p)`: `numpy`
validates the probability vector (matching length, non-negative entries,
sum exactly 1 in this exact-rational embedding) and then rejects a sample
larger than the population; the weighted draw itself is modelled as an
entropy-driven selection without replacement. -/
def npChoiceNoReplace (pool : List Mutant) (n : Nat) (p : List ℚ) (w : Rng) :
    Except Err (List Mutant × Rng) :=
  if p.length ≠ pool.length ∨ p.any (fun q => q < 0) ∨ p.sum ≠ 1 then
    .error .valueErrorBadProbabilities
  else if pool.length < n then .error .valueErrorSampleTooLarge
  else .ok (pickNoReplace n pool w)

/-- Per-parent child mutation of `make_children` (walkers.py:407-411): for
each selected parent, a distance from the process-global `random.randint`
and a mutation from the walker's own `RandomState`. -/
def mutateChildren (cfg : GeneticConfig) :
    List Mutant → Rng → Rng → List String × Rng × Rng
  | [], w, g => ([], w, g)
  | p :: ps, w, g =>
    let distance := (randintStep cfg.minDistance cfg.maxDistance g).1
    let g1 := (randintStep cfg.minDistance cfg.maxDistance g).2
    let s := (mutateSeq p.sequence distance w).1
    let w1 := (mutateSeq p.sequence distance w).2
    let rest := mutateChildren cfg ps w1 g1
    (s :: rest.1, rest.2.1, rest.2.2)

/-- Child assembly loop of `make_children` (walkers.py:418-423):
`child_scores[i]` on a too-short score list raises `IndexError`; extra
scores are silently ignored. -/
def buildChildren (parents : List Mutant) (childSeqs : List String)
    (childScores : List ℚ) : Except Err (List Mutant) :=
  if parents.length ≤ childScores.length ∧ parents.length ≤ childSeqs.length then
    .ok (((parents.zip childSeqs).zip childScores).map
      (fun x => ⟨x.1.2, x.1.1.sequence, x.1.1.seed, some x.2⟩))
  else .error .indexError

/-- Embedding of `GeneticWalker.make_children` (walkers.py:388-423).
Arithmetic on a `None` score (`min` / subtraction inside the weight
comprehension) is Python `TypeError`; with an empty pool the comprehension
is empty and no such error occurs. -/
def makeChildren (cfg : GeneticConfig) (possibleParents : List Mutant) (w g : Rng) :
    Except Err (List Mutant × Rng × Rng) :=
  if possibleParents.any (fun x => x.score.isNone) then .error .typeError
  else
    match npChoiceNoReplace possibleParents cfg.nParents
        (selectionWeights (possibleParents.map (fun x => x.score.getD 0))) w with
    | .error e => .error e
    | .ok (parents, w1) =>
      let childSeqs := (mutateChildren cfg parents w1 g).1
      let w2 := (mutateChildren cfg parents w1 g).2.1
      let g2 := (mutateChildren cfg parents w1 g).2.2
      let scoresW :=
        match cfg.oracle with
        | some f => (f childSeqs cfg.targetMol, w2)
        | none => npRand childSeqs.length w2
      match buildChildren parents childSeqs scoresW.1 with
      | .error e => .error e
      | .ok children => .ok (children, scoresW.2, g2)

/-- Embedding of the generation loop of `GeneticWalker.generate_mutants`
(walkers.py:357-381): children from the top `n_possible_parents`, appended
to the population, full re-sort, and emission of the top
`generation_counts[g]` records tagged with generation number `g`. -/
def geneticGenLoop (cfg : GeneticConfig) (counts : List (Nat × Nat)) :
    Nat → Nat → List Mutant → Rng → Rng →
    Except Err (List Choice × List Mutant × Rng × Rng)
  | 0, _, population, w, g => .ok ([], population, w, g)
  | fuel + 1, genNumber, population, w, g =>
    match makeChildren cfg (population.take cfg.nPossibleParents) w g with
    | .error e => .error e
    | .ok (children, w1, g1) =>
      match geneticGenLoop cfg counts fuel (genNumber + 1)
          (sortByScore (population ++ children)) w1 g1 with
      | .error e => .error e
      | .ok (rest, popF, w2, g2) =>
        .ok ((if hasGen counts genNumber then
            ((sortByScore (population ++ children)).take
              (requestedAt counts genNumber)).map (fun p =>
                createChoicePb p.sequence genNumber p.parent p.seed p.score
                  cfg.modelName MethodType.geneticAlgorithm)
          else []) ++ rest, popF, w2, g2)

/-- Embedding of `GeneticWalker.generate_mutants` (walkers.py:342-386):
score the seeds in one batch (`zip` silently truncates on a mismatched
score list), sort the initial population, then run
`max(generation_counts) + 1` generations (`ValueError` when the mapping is
empty). -/
def geneticGenerateMutants (cfg : GeneticConfig) (seeds : List String)
    (counts : List (Nat × Nat)) (w g : Rng) : Except Err (List Choice) :=
  let scoresW :=
    match cfg.oracle with
    | some f => (f seeds cfg.targetMol, w)
    | none => npRand seeds.length w
  match maxKey counts with
  | .error e => .error e
  | .ok mx =>
    match geneticGenLoop cfg counts (mx + 1) 0
        (sortByScore ((seeds.zip scoresW.1).map
          (fun x : String × ℚ => (⟨x.1, x.1, x.1, some x.2⟩ : Mutant))))
        scoresW.2 g with
    | .error e => .error e
    | .ok r => .ok r.1

/-- Concrete oracles used in witness and counterexample runs: a constant
scorer, a content-ranking scorer, one returning an extra score, and one
returning no scores. -/
def oracleConst : Oracle := fun xs _ => xs.map (fun _ => 1)

/-- Oracle ranking single-base sequences C > G > T > other. -/
def oracleRank : Oracle := fun xs _ =>
  xs.map (fun s => if s = "C" then 3 else if s = "G" then 2 else if s = "T" then 1 else 0)

/-- Oracle returning one score more than the number of input sequences. -/
def oracleExtra : Oracle := fun xs _ => (xs.map (fun _ => (1 : ℚ))) ++ [5]

/-- Oracle returning no scores at all. -/
def oracleNone : Oracle := fun _ _ => []

/-- Sampling configuration with distance range [1, 2] (concrete runs). -/
def cfgS1 : SamplingConfig := ⟨some oracleConst, "m", "t", 1, 1, 1, 1, 2⟩

/-- Sampling configuration with fixed distance 1 (concrete runs). -/
def cfgS2 : SamplingConfig := ⟨some oracleConst, "m", "t", 1, 1, 1, 1, 1⟩

/-- Sampling configuration for the degraded-search scenario: limit 3,
4 trials, 3 parents, fixed distance 1, ranking oracle. -/
def cfgS3 : SamplingConfig := ⟨some oracleRank, "m", "t", 3, 4, 3, 1, 1⟩

/-- Sampling configuration whose oracle returns an extra score. -/
def cfgS4 : SamplingConfig := ⟨some oracleExtra, "m", "t", 1, 1, 1, 1, 1⟩

/-- Sampling configuration whose oracle returns too few scores. -/
def cfgS5 : SamplingConfig := ⟨some oracleNone, "m", "t", 1, 1, 1, 1, 1⟩

/-- Genetic configuration: 2 possible parents, 1 parent, fixed distance 1. -/
def cfgG1 : GeneticConfig := ⟨some oracleConst, "m", "t", 2, 1, 1, 1⟩

/-- Genetic configuration demanding 2 parents from a pool of at most 5. -/
def cfgG2 : GeneticConfig := ⟨some oracleConst, "m", "t", 5, 2, 1, 1⟩

deriving instance DecidableEq for Except

theorem getD_set_ne (l : List Char) (i j : Nat) (a : Char) (d : Char) (h : i ≠ j) :
    (l.set i a).getD j d = l.getD j d := by
  simp [List.getD, List.getElem?_set_ne h]

theorem getD_set_self (l : List Char) (i : Nat) (a : Char) (d : Char) (h : i < l.length) :
    (l.set i a).getD i d = a := by
  simp [List.getD, List.getElem?_set_self h]

theorem perm_cons_eraseIdx_self :
    ∀ (l : List Nat) (j : Nat), j < l.length → l.Perm (l.getD j 0 :: l.eraseIdx j)
  | x :: xs, 0, _ => by simp
  | x :: xs, j + 1, h => by
    have hj : j < xs.length := by simpa using h
    have ih := perm_cons_eraseIdx_self xs j hj
    rw [List.getD_cons_succ, List.eraseIdx_cons_succ]
    exact (ih.cons x).trans (List.Perm.swap _ _ _)

theorem shuffleGo_perm : ∀ (fuel : Nat) (l : List Nat) (w : Rng),
    (shuffleGo fuel l w).1.Perm l
  | 0, l, _ => List.Perm.refl l
  | fuel + 1, [], _ => List.Perm.refl []
  | fuel + 1, x :: xs, w => by
    have hj : w.peek % (x :: xs).length < (x :: xs).length :=
      Nat.mod_lt _ (by simp)
    have ih := shuffleGo_perm fuel ((x :: xs).eraseIdx (w.peek % (x :: xs).length)) w.next
    have hperm := perm_cons_eraseIdx_self (x :: xs) (w.peek % (x :: xs).length) hj
    simp only [shuffleGo]
    exact (ih.cons _).trans hperm.symm

theorem npShuffle_perm (l : List Nat) (w : Rng) : (npShuffle l w).1.Perm l :=
  shuffleGo_perm l.length l w

theorem choiceChar_mem (l : List Char) (w : Rng) (h : l ≠ []) :
    (choiceChar l w).1 ∈ l := by
  have hl : 0 < l.length := List.length_pos.mpr h
  have hj : w.peek % l.length < l.length := Nat.mod_lt _ hl
  simp only [choiceChar, List.getD_eq_getElem l 'A' hj]
  exact List.getElem_mem hj

theorem bases_filter_ne_nil (c : Char) : DNA_BASES.filter (fun b => b ≠ c) ≠ [] := by
  by_cases hc : c = 'A'
  · subst hc
    decide
  · exact List.ne_nil_of_mem
      (List.mem_filter.mpr ⟨by decide, decide_eq_true (fun hac => hc hac.symm)⟩)

theorem mutateBases_spec : ∀ (ps : List Nat) (cur : List Char) (w : Rng),
    ps.Nodup → (∀ p ∈ ps, p < cur.length) →
    ((mutateBases ps cur w).1.length = cur.length ∧
     (∀ i, i ∉ ps → (mutateBases ps cur w).1.getD i ' ' = cur.getD i ' ') ∧
     (∀ i, i ∈ ps → (mutateBases ps cur w).1.getD i ' ' ∈ DNA_BASES ∧
        (mutateBases ps cur w).1.getD i ' ' ≠ cur.getD i ' '))
  | [], cur, w, _, _ => by
    refine ⟨rfl, fun i _ => rfl, fun i hi => absurd hi (List.not_mem_nil i)⟩
  | p :: rest, cur, w, hnd, hlt => by
    have hp : p < cur.length := hlt p (List.mem_cons_self p rest)
    have hnb := choiceChar_mem (DNA_BASES.filter (fun b => b ≠ cur.getD p ' ')) w
      (bases_filter_ne_nil _)
    rw [List.mem_filter] at hnb
    have hnd' : rest.Nodup := hnd.of_cons
    have hpnotin : p ∉ rest := (List.nodup_cons.mp hnd).1
    simp only [mutateBases]
    set nb := (choiceChar (DNA_BASES.filter (fun b => b ≠ cur.getD p ' ')) w).1 with hnbdef
    have hlt' : ∀ q ∈ rest, q < (cur.set p nb).length := by
      intro q hq
      rw [List.length_set]
      exact hlt q (List.mem_cons_of_mem p hq)
    obtain ⟨ihlen, ihoff, ihon⟩ :=
      mutateBases_spec rest (cur.set p nb)
        (choiceChar (DNA_BASES.filter (fun b => b ≠ cur.getD p ' ')) w).2 hnd' hlt'
    refine ⟨by rw [ihlen, List.length_set], ?_, ?_⟩
    · intro i hi
      have hip : i ≠ p := fun h => hi (h ▸ List.mem_cons_self p rest)
      have hirest : i ∉ rest := fun h => hi (List.mem_cons_of_mem p h)
      rw [ihoff i hirest, getD_set_ne _ _ _ _ _ (Ne.symm hip)]
    · intro i hi
      rcases List.mem_cons.mp hi with hip | hirest
      · subst hip
        rw [ihoff i hpnotin, getD_set_self _ _ _ _ hp]
        exact ⟨hnb.1, by simpa using hnb.2⟩
      · have hip : i ≠ p := fun h => hpnotin (h ▸ hirest)
        obtain ⟨hmem, hne⟩ := ihon i hirest
        rw [getD_set_ne _ _ _ _ _ (Ne.symm hip)] at hne
        exact ⟨hmem, hne⟩

theorem countP_mem_eq_length {ps : List Nat} {L : Nat} (hnd : ps.Nodup)
    (hlt : ∀ p ∈ ps, p < L) :
    (List.range L).countP (fun i => decide (i ∈ ps)) = ps.length := by
  rw [List.countP_eq_length_filter]
  have hperm : ((List.range L).filter (fun i => decide (i ∈ ps))).Perm ps := by
    rw [List.perm_ext_iff_of_nodup ((List.nodup_range L).filter _) hnd]
    intro a
    simp only [List.mem_filter, List.mem_range, decide_eq_true_eq]
    exact ⟨fun h => h.2, fun h => ⟨hlt a h, h⟩⟩
  exact hperm.length_eq

/-- Core property of `mutate_seq`: with the first `k` positions of a
permutation of the index range as mutation sites, the result has the same
length, differs exactly on those sites, and the new symbols are alphabet
symbols differing from the originals. -/
theorem mutateSeq_spec (seq : String) (k : Nat) (w : Rng) :
    ((mutateSeq seq k w).1.length = seq.length ∧
     countDiff seq.data (mutateSeq seq k w).1.data = min k seq.length ∧
     (∀ i, i < seq.length →
        seq.data.getD i ' ' ≠ (mutateSeq seq k w).1.data.getD i ' ' →
        ((mutateSeq seq k w).1.data.getD i ' ' ∈ DNA_BASES))) := by
  have hlen : seq.length = seq.data.length := rfl
  set ps := ((npShuffle (List.range seq.length) w).1.take k) with hps
  have hperm := npShuffle_perm (List.range seq.length) w
  have hnd : ps.Nodup :=
    (hperm.nodup_iff.mpr (List.nodup_range _)).sublist (List.take_sublist _ _)
  have hlt : ∀ p ∈ ps, p < seq.data.length := by
    intro p hp
    have hmem : p ∈ (npShuffle (List.range seq.length) w).1 :=
      List.mem_of_mem_take hp
    have := hperm.mem_iff.mp hmem
    rw [List.mem_range] at this
    exact hlen ▸ this
  have hpslen : ps.length = min k seq.length := by
    rw [hps, List.length_take, hperm.length_eq, List.length_range]
  obtain ⟨hl, hoff, hon⟩ := mutateBases_spec ps seq.data
    (npShuffle (List.range seq.length) w).2 hnd hlt
  have hres : (mutateSeq seq k w).1.data =
      (mutateBases ps seq.data (npShuffle (List.range seq.length) w).2).1 := rfl
  rw [← hres] at hl hoff hon
  refine ⟨?_, ?_, ?_⟩
  · show (mutateSeq seq k w).1.data.length = seq.data.length
    rw [hl]
  · rw [← hpslen]
    show (List.range seq.data.length).countP _ = ps.length
    rw [← countP_mem_eq_length hnd hlt]
    apply List.countP_congr
    intro i hi
    rw [List.mem_range] at hi
    simp only [decide_eq_true_eq]
    constructor
    · intro hne
      by_contra hnotin
      exact hne ((hoff i hnotin).symm)
    · intro hin
      exact fun h => (hon i hin).2 h.symm
  · intro i _ hne
    by_cases hin : i ∈ ps
    · exact (hon i hin).1
    · exact absurd (hoff i hin).symm hne

theorem foldl_min_le : ∀ (l : List ℚ) (a : ℚ), l.foldl min a ≤ a
  | [], a => le_refl a
  | x :: xs, a => le_trans (foldl_min_le xs (min a x)) (min_le_left a x)

theorem foldl_min_le_mem : ∀ (l : List ℚ) (a x : ℚ), x ∈ l → l.foldl min a ≤ x
  | y :: ys, a, x, h => by
    rcases List.mem_cons.mp h with h | h
    · subst h
      exact le_trans (foldl_min_le ys (min a x)) (min_le_right a x)
    · exact foldl_min_le_mem ys (min a y) x h

theorem listMinD_le (l : List ℚ) (x : ℚ) (h : x ∈ l) : listMinD l ≤ x := by
  cases l with
  | nil => cases h
  | cons a as =>
    rcases List.mem_cons.mp h with h | h
    · subst h
      exact foldl_min_le as x
    · exact foldl_min_le_mem as a x h

theorem sum_map_div (l : List ℚ) (c : ℚ) :
    (l.map (fun x => x / c)).sum = l.sum / c := by
  induction l with
  | nil => simp
  | cons a as ih => simp [ih, add_div]

theorem shiftedScores_pos (rawScores : List ℚ) :
    ∀ y ∈ shiftedScores rawScores, 0 < y := by
  intro y hy
  obtain ⟨x, hx, rfl⟩ := List.mem_map.mp hy
  have hmin := listMinD_le rawScores x hx
  have heps : (0 : ℚ) < epsilon := by norm_num [epsilon]
  linarith

theorem shiftedScores_sum_pos (rawScores : List ℚ) (h : rawScores ≠ []) :
    0 < (shiftedScores rawScores).sum := by
  refine List.sum_pos _ (shiftedScores_pos rawScores) ?_
  intro hc
  exact h (List.map_eq_nil_iff.mp hc)

theorem selectionWeights_valid (rawScores : List ℚ)
    (h : rawScores ≠ []) :
    (∀ q ∈ selectionWeights rawScores, 0 < q) ∧
    (selectionWeights rawScores).sum = 1 := by
  have hsum := shiftedScores_sum_pos rawScores h
  constructor
  · intro q hq
    obtain ⟨y, hy, rfl⟩ := List.mem_map.mp hq
    exact div_pos (shiftedScores_pos rawScores y hy) hsum
  · rw [selectionWeights, sum_map_div, div_self (ne_of_gt hsum)]

/-- Claim C7: in `GeneticWalker.make_children`, for every non-empty
selection pool the selection weights (raw score minus pool minimum plus
epsilon, normalized) are all strictly positive and sum to exactly 1 —
including when all raw scores are identical, since every shifted score is
then exactly `epsilon > 0`. -/
theorem selectionWeights_positive_sum_one (rawScores : List ℚ)
    (h : rawScores ≠ []) :
    (∀ q ∈ selectionWeights rawScores, 0 < q) ∧
    (selectionWeights rawScores).sum = 1 :=
  selectionWeights_valid rawScores h

theorem selectionWeights_positive_sum_one_witness :
    (([(1 : ℚ), 1, 1] : List ℚ) ≠ []) ∧
    ((∀ q ∈ selectionWeights [1, 1, 1], 0 < q) ∧
     (selectionWeights [1, 1, 1]).sum = 1) :=
  ⟨by decide, selectionWeights_positive_sum_one [1, 1, 1] (by decide)⟩

/-- Claim C3: for every sequence `s` and `1 ≤ k ≤ length(s)`,
`mutate_seq(s, k, rng)` returns a string of the same length differing from
`s` at exactly `k` positions, and every changed position holds a DNA
alphabet symbol (which differs from the original by hypothesis). -/
theorem mutateSeq_exact_distance (s : String) (k : Nat) (w : Rng)
    (h1 : 1 ≤ k) (h2 : k ≤ s.length) :
    (mutateSeq s k w).1.length = s.length ∧
    countDiff s.data (mutateSeq s k w).1.data = k ∧
    (∀ i, i < s.length →
      s.data.getD i ' ' ≠ (mutateSeq s k w).1.data.getD i ' ' →
      (mutateSeq s k w).1.data.getD i ' ' ∈ DNA_BASES) := by
  obtain ⟨ha, hb, hc⟩ := mutateSeq_spec s k w
  exact ⟨ha, by rwa [Nat.min_eq_left h2] at hb, hc⟩

theorem mutateSeq_exact_distance_witness :
    (1 ≤ 2 ∧ 2 ≤ "ACGT".length) ∧
    ((mutateSeq "ACGT" 2 [1, 2, 3, 4]).1.length = "ACGT".length ∧
     countDiff "ACGT".data (mutateSeq "ACGT" 2 [1, 2, 3, 4]).1.data = 2 ∧
     (∀ i, i < "ACGT".length →
       "ACGT".data.getD i ' ' ≠ (mutateSeq "ACGT" 2 [1, 2, 3, 4]).1.data.getD i ' ' →
       (mutateSeq "ACGT" 2 [1, 2, 3, 4]).1.data.getD i ' ' ∈ DNA_BASES)) :=
  ⟨⟨by decide, by decide⟩,
    mutateSeq_exact_distance "ACGT" 2 [1, 2, 3, 4] (by decide) (by decide)⟩

/-- Claim C2, counterexample: the claim says `mutate_seq` with
`k > length(seq)` fails with an `InvalidMutationDistance` error.  In the
code the slice `position_list[:num_mutations]` silently clamps, no
`InvalidMutationDistance` class even exists, and the call returns
normally: at `seq = "AA"`, `k = 3` it returns the fully mutated string
"CC" (Hamming distance 2 = length, not an error). -/
theorem mutateSeq_k_gt_len_returns_normally :
    (mutateSeq "AA" 3 [0, 0, 0, 0]).1 = "CC" ∧
    countDiff "AA".data (mutateSeq "AA" 3 [0, 0, 0, 0]).1.data = 2 := by
  decide

/-- Claim C2, amended: for `k > length(seq)` the call does not fail; it
returns a sequence of the same length mutated at every position (Hamming
distance exactly `length(seq)`, not `k`). -/
theorem mutateSeq_k_gt_len_mutates_all_positions (s : String) (k : Nat)
    (w : Rng) (h : s.length < k) :
    (mutateSeq s k w).1.length = s.length ∧
    countDiff s.data (mutateSeq s k w).1.data = s.length := by
  obtain ⟨ha, hb, _⟩ := mutateSeq_spec s k w
  exact ⟨ha, by rwa [Nat.min_eq_right (le_of_lt h)] at hb⟩

theorem mutateSeq_k_gt_len_mutates_all_positions_witness :
    ("AA".length < 3) ∧
    ((mutateSeq "AA" 3 [1, 1, 1, 1]).1.length = "AA".length ∧
     countDiff "AA".data (mutateSeq "AA" 3 [1, 1, 1, 1]).1.data = "AA".length) :=
  ⟨by decide, mutateSeq_k_gt_len_mutates_all_positions "AA" 3 [1, 1, 1, 1] (by decide)⟩

theorem insertByScore_perm (m : Mutant) :
    ∀ (l : List Mutant), (insertByScore m l).Perm (m :: l)
  | [] => List.Perm.refl _
  | x :: xs => by
    rw [insertByScore]
    split
    · exact List.Perm.refl _
    · exact ((insertByScore_perm m xs).cons x).trans (List.Perm.swap _ _ _)

theorem sortByScore_perm : ∀ (l : List Mutant), (sortByScore l).Perm l
  | [] => List.Perm.refl _
  | x :: xs =>
    (insertByScore_perm x (sortByScore xs)).trans ((sortByScore_perm xs).cons x)

theorem sortByScore_length (l : List Mutant) :
    (sortByScore l).length = l.length :=
  (sortByScore_perm l).length_eq

theorem sortByScore_mem {m : Mutant} {l : List Mutant} (h : m ∈ sortByScore l) :
    m ∈ l :=
  (sortByScore_perm l).mem_iff.mp h

theorem pickNoReplace_length :
    ∀ (n : Nat) (pool : List Mutant) (w : Rng), n ≤ pool.length →
      (pickNoReplace n pool w).1.length = n
  | 0, _, _, _ => rfl
  | n + 1, [], _, h => by simp at h
  | n + 1, p :: ps, w, h => by
    simp only [pickNoReplace]
    have hj : w.peek % (p :: ps).length < (p :: ps).length :=
      Nat.mod_lt _ (by simp)
    have hlen : ((p :: ps).eraseIdx (w.peek % (p :: ps).length)).length = ps.length := by
      rw [List.length_eraseIdx, if_pos hj]
      simp
    have hrec := pickNoReplace_length n
      ((p :: ps).eraseIdx (w.peek % (p :: ps).length)) w.next
      (by rw [hlen]; simpa using Nat.le_of_succ_le_succ h)
    rcases hpk : pickNoReplace n ((p :: ps).eraseIdx (w.peek % (p :: ps).length)) w.next
      with ⟨rest, w'⟩
    rw [hpk] at hrec
    simp [hpk, hrec]

theorem npChoiceNoReplace_ok (pool : List Mutant) (n : Nat) (p : List ℚ)
    (w : Rng) (res : List Mutant × Rng)
    (h : npChoiceNoReplace pool n p w = .ok res) :
    res.1.length = n ∧ n ≤ pool.length := by
  rw [npChoiceNoReplace] at h
  by_cases h1 : p.length ≠ pool.length ∨ p.any (fun q => q < 0) ∨ p.sum ≠ 1
  · rw [if_pos h1] at h
    exact Except.noConfusion h
  · rw [if_neg h1] at h
    by_cases h2 : pool.length < n
    · rw [if_pos h2] at h
      exact Except.noConfusion h
    · rw [if_neg h2] at h
      cases h
      exact ⟨pickNoReplace_length n pool w (Nat.le_of_not_lt h2), Nat.le_of_not_lt h2⟩

theorem mutateChildren_length (cfg : GeneticConfig) :
    ∀ (ps : List Mutant) (w g : Rng), (mutateChildren cfg ps w g).1.length = ps.length
  | [], _, _ => rfl
  | p :: ps, w, g => by
    simp only [mutateChildren]
    simp [mutateChildren_length cfg ps]

theorem buildChildren_ok_length (parents : List Mutant) (cs : List String)
    (qs : List ℚ) (out : List Mutant) (h : buildChildren parents cs qs = .ok out) :
    out.length = parents.length := by
  rw [buildChildren] at h
  by_cases hg : parents.length ≤ qs.length ∧ parents.length ≤ cs.length
  · rw [if_pos hg] at h
    cases h
    simp only [List.length_map, List.length_zip]
    omega
  · rw [if_neg hg] at h
    exact Except.noConfusion h

theorem makeChildren_ok (cfg : GeneticConfig) (pool : List Mutant) (w g : Rng)
    (r : List Mutant × Rng × Rng) (h : makeChildren cfg pool w g = .ok r) :
    r.1.length = cfg.nParents ∧ cfg.nParents ≤ pool.length := by
  rw [makeChildren] at h
  split at h
  · exact Except.noConfusion h
  · cases hnp : npChoiceNoReplace pool cfg.nParents
      (selectionWeights (pool.map (fun x => x.score.getD 0))) w with
    | error e =>
      rw [hnp] at h
      exact Except.noConfusion h
    | ok pw =>
      obtain ⟨parents, w1⟩ := pw
      rw [hnp] at h
      simp only at h
      obtain ⟨hplen, hple⟩ := npChoiceNoReplace_ok pool cfg.nParents _ w _ hnp
      cases hbc : buildChildren parents (mutateChildren cfg parents w1 g).1
          (match cfg.oracle with
            | some f => (f (mutateChildren cfg parents w1 g).1 cfg.targetMol,
                (mutateChildren cfg parents w1 g).2.1)
            | none => npRand (mutateChildren cfg parents w1 g).1.length
                (mutateChildren cfg parents w1 g).2.1).1 with
      | error e =>
        rw [hbc] at h
        exact Except.noConfusion h
      | ok children =>
        rw [hbc] at h
        cases h
        have hb := buildChildren_ok_length _ _ _ _ hbc
        simp only [hplen] at hb
        exact ⟨hb, hple⟩

/-- Claim C6: in `GeneticWalker`, every successfully completed generation
appends exactly `n_parents` children and removes nothing, so after `g`
generations the population size is exactly the initial size plus
`g * n_parents` (monotonic growth, never shrinking). -/
theorem geneticGenLoop_population_growth (cfg : GeneticConfig)
    (counts : List (Nat × Nat)) :
    ∀ (fuel i : Nat) (pop : List Mutant) (w g : Rng)
      (out : List Choice × List Mutant × Rng × Rng),
      geneticGenLoop cfg counts fuel i pop w g = .ok out →
      out.2.1.length = pop.length + fuel * cfg.nParents
  | 0, i, pop, w, g, out, h => by
    simp only [geneticGenLoop] at h
    cases h
    simp
  | fuel + 1, i, pop, w, g, out, h => by
    simp only [geneticGenLoop] at h
    cases hmc : makeChildren cfg (pop.take cfg.nPossibleParents) w g with
    | error e =>
      rw [hmc] at h
      exact Except.noConfusion h
    | ok cw =>
      obtain ⟨children, w1, g1⟩ := cw
      rw [hmc] at h
      simp only at h
      cases hrec : geneticGenLoop cfg counts fuel (i + 1)
          (sortByScore (pop ++ children)) w1 g1 with
      | error e =>
        rw [hrec] at h
        exact Except.noConfusion h
      | ok out2 =>
        obtain ⟨rest, popF, w2, g2⟩ := out2
        rw [hrec] at h
        cases h
        have ih := geneticGenLoop_population_growth cfg counts fuel (i + 1)
          (sortByScore (pop ++ children)) w1 g1 (rest, popF, w2, g2) hrec
        have hcl := (makeChildren_ok cfg (pop.take cfg.nPossibleParents) w g _ hmc).1
        simp only [sortByScore_length, List.length_append, hcl] at ih
        show popF.length = pop.length + (fuel + 1) * cfg.nParents
        rw [Nat.succ_mul]
        generalize fuel * cfg.nParents = t at ih ⊢
        omega

theorem geneticGenLoop_population_growth_witness :
    geneticGenLoop cfgG1 [(0, 1)] 1 0 [⟨"AA", "AA", "AA", some 1⟩] [0, 0, 0] [] =
      .ok ([⟨"AA", 0, "AA", "AA", some 1, "m", MethodType.geneticAlgorithm⟩],
        [⟨"AA", "AA", "AA", some 1⟩, ⟨"CA", "AA", "AA", some 1⟩], [], []) ∧
    (([⟨"AA", 0, "AA", "AA", some 1, "m", MethodType.geneticAlgorithm⟩],
        [⟨"AA", "AA", "AA", some 1⟩, ⟨"CA", "AA", "AA", some 1⟩], ([] : Rng),
        ([] : Rng)) :
      List Choice × List Mutant × Rng × Rng).2.1.length =
      ([⟨"AA", "AA", "AA", some 1⟩] : List Mutant).length + 1 * cfgG1.nParents := by
  have hsel : selectionWeights (List.map (fun x => x.score.getD 0)
      ([⟨"AA", "AA", "AA", some 1⟩] : List Mutant)) = [1] := by
    simp [selectionWeights, shiftedScores, listMinD, epsilon]
  have hmc : makeChildren cfgG1 [⟨"AA", "AA", "AA", some 1⟩] [0, 0, 0] [] =
      .ok ([⟨"CA", "AA", "AA", some 1⟩], [], []) := by
    rw [makeChildren, if_neg (by decide), hsel]
    rw [npChoiceNoReplace, if_neg (by norm_num), if_neg (by decide)]
    decide
  have htake : List.take cfgG1.nPossibleParents
      ([⟨"AA", "AA", "AA", some 1⟩] : List Mutant) = [⟨"AA", "AA", "AA", some 1⟩] := by
    decide
  have hrun : geneticGenLoop cfgG1 [(0, 1)] 1 0 [⟨"AA", "AA", "AA", some 1⟩]
      [0, 0, 0] [] =
      .ok ([⟨"AA", 0, "AA", "AA", some 1, "m", MethodType.geneticAlgorithm⟩],
        [⟨"AA", "AA", "AA", some 1⟩, ⟨"CA", "AA", "AA", some 1⟩], [], []) := by
    simp only [geneticGenLoop]
    rw [htake, hmc]
    decide
  exact ⟨hrun,
    geneticGenLoop_population_growth cfgG1 [(0, 1)] 1 0
      [⟨"AA", "AA", "AA", some 1⟩] [0, 0, 0] [] _ hrun⟩

theorem selectionWeights_length (rawScores : List ℚ) :
    (selectionWeights rawScores).length = rawScores.length := by
  simp [selectionWeights, shiftedScores]

theorem makeChildren_err (cfg : GeneticConfig) (pool : List Mutant) (w g : Rng)
    (h : pool.length < cfg.nParents) :
    ∃ e, makeChildren cfg pool w g = .error e := by
  rw [makeChildren]
  by_cases hn : pool.any (fun x => x.score.isNone)
  · exact ⟨.typeError, by rw [if_pos hn]⟩
  · rw [if_neg hn]
    rcases Decidable.em (pool = []) with hnil | hne
    · subst hnil
      exact ⟨.valueErrorBadProbabilities,
        by simp [npChoiceNoReplace, selectionWeights, shiftedScores]⟩
    · have hvalid := selectionWeights_valid
        (pool.map (fun x => x.score.getD 0)) (by simpa using hne)
      refine ⟨.valueErrorSampleTooLarge, ?_⟩
      rw [npChoiceNoReplace, if_neg ?_, if_pos h]
      push_neg
      refine ⟨by rw [selectionWeights_length, List.length_map], ?_, hvalid.2⟩
      intro hq'
      rw [List.any_eq_true] at hq'
      obtain ⟨q, hq, hlt⟩ := hq'
      rw [decide_eq_true_eq] at hlt
      exact absurd hlt (not_lt.mpr (le_of_lt (hvalid.1 q hq)))

/-- Claim C10: in `GeneticWalker`, when `n_parents` exceeds the size of
the eligible pool (the top `min(population size, n_possible_parents)`
candidates, e.g. fewer seeds than `n_parents` at generation 0), the
weighted selection without replacement raises an exception and the run
aborts; conversely any generation that completes had an eligible pool of
at least `n_parents` candidates. -/
theorem genetic_aborts_when_pool_smaller_than_nParents (cfg : GeneticConfig)
    (f : Oracle) (seeds : List String) (k : Nat × Nat) (ks : List (Nat × Nat))
    (w g : Rng) (hf : cfg.oracle = some f)
    (hlen : (f seeds cfg.targetMol).length = seeds.length)
    (hsize : min seeds.length cfg.nPossibleParents < cfg.nParents) :
    (∃ e, geneticGenerateMutants cfg seeds (k :: ks) w g = .error e) ∧
    (∀ (pool : List Mutant) (w' g' : Rng) (r : List Mutant × Rng × Rng),
      makeChildren cfg pool w' g' = .ok r → cfg.nParents ≤ pool.length) := by
  constructor
  · have hpop : (sortByScore ((seeds.zip (f seeds cfg.targetMol)).map
        (fun x : String × ℚ => (⟨x.1, x.1, x.1, some x.2⟩ : Mutant)))).length =
        seeds.length := by
      rw [sortByScore_length, List.length_map, List.length_zip, hlen, Nat.min_self]
    have hlt : ((sortByScore ((seeds.zip (f seeds cfg.targetMol)).map
        (fun x : String × ℚ => (⟨x.1, x.1, x.1, some x.2⟩ : Mutant)))).take
          cfg.nPossibleParents).length < cfg.nParents := by
      rw [List.length_take, hpop, Nat.min_comm]
      exact hsize
    obtain ⟨e, he⟩ := makeChildren_err cfg _ w g hlt
    refine ⟨e, ?_⟩
    rw [geneticGenerateMutants]
    simp only [hf, maxKey, List.map_cons]
    simp only [geneticGenLoop]
    rw [he]
  · intro pool w' g' r hr
    exact (makeChildren_ok cfg pool w' g' r hr).2

theorem genetic_aborts_when_pool_smaller_than_nParents_witness :
    (cfgG2.oracle = some oracleConst ∧
     (oracleConst ["A"] cfgG2.targetMol).length = (["A"] : List String).length ∧
     min (["A"] : List String).length cfgG2.nPossibleParents < cfgG2.nParents) ∧
    ((∃ e, geneticGenerateMutants cfgG2 ["A"] [(0, 1)] [] [] = .error e) ∧
     (∀ (pool : List Mutant) (w' g' : Rng) (r : List Mutant × Rng × Rng),
       makeChildren cfgG2 pool w' g' = .ok r → cfgG2.nParents ≤ pool.length)) :=
  ⟨⟨rfl, by decide, by decide⟩,
    genetic_aborts_when_pool_smaller_than_nParents cfgG2 oracleConst ["A"]
      (0, 1) [] [] [] rfl (by decide) (by decide)⟩

theorem addMutant_mem {s : List Mutant} {m x : Mutant} (h : x ∈ addMutant s m) :
    x ∈ s ∨ x = m := by
  rw [addMutant] at h
  split at h
  · exact Or.inl h
  · rcases List.mem_append.mp h with hs | hm
    · exact Or.inl hs
    · exact Or.inr (List.mem_singleton.mp hm)

theorem collectLoop_avoid (cfg : SamplingConfig) :
    ∀ (fuel : Nat) (parents : List Mutant) (toAvoid : List String)
      (ms : List Mutant) (att : Nat) (w g : Rng) (out : List Mutant × Rng × Rng),
      collectLoop cfg fuel parents toAvoid ms att w g = .ok out →
      (∀ m ∈ ms, m.sequence ∉ toAvoid) →
      ∀ m ∈ out.1, m.sequence ∉ toAvoid
  | 0, parents, toAvoid, ms, att, w, g, out, h, hinv => by
    simp only [collectLoop] at h
    cases h
    exact hinv
  | fuel + 1, parents, toAvoid, ms, att, w, g, out, h, hinv => by
    simp only [collectLoop] at h
    split at h
    · split at h
      · exact Except.noConfusion h
      · split at h
        · exact collectLoop_avoid cfg fuel _ _ _ _ _ _ out h hinv
        · next hmem =>
          refine collectLoop_avoid cfg fuel _ _ _ _ _ _ out h ?_
          intro x hx
          rcases addMutant_mem hx with hxs | hxeq
          · exact hinv x hxs
          · rw [hxeq]
            exact hmem
    · cases h
      exact hinv

theorem assignScores_sequences {ms : List Mutant} {scores : List ℚ}
    {scored : List Mutant} (h : assignScores ms scores = .ok scored) :
    ∀ x ∈ scored, ∃ y ∈ ms, x.sequence = y.sequence := by
  rw [assignScores] at h
  split at h
  · cases h
    intro x hx
    obtain ⟨mq, hmq, hxeq⟩ := List.mem_map.mp hx
    exact ⟨mq.1, (List.of_mem_zip hmq).1, by rw [← hxeq]⟩
  · exact Except.noConfusion h

theorem oneGeneration_avoid (cfg : SamplingConfig) (n : Nat)
    (parents : List Mutant) (toAvoid : List String) (w g : Rng)
    (out : List Mutant × Rng × Rng)
    (h : oneGeneration cfg n parents toAvoid w g = .ok out) :
    ∀ m ∈ out.1, m.sequence ∉ toAvoid := by
  rw [oneGeneration] at h
  cases hc : collectLoop cfg cfg.maxTrials parents toAvoid [] 0 w g with
  | error e =>
    rw [hc] at h
    exact Except.noConfusion h
  | ok msw =>
    obtain ⟨ms, w1, g1⟩ := msw
    rw [hc] at h
    simp only at h
    have hms : ∀ m ∈ ms, m.sequence ∉ toAvoid :=
      collectLoop_avoid cfg cfg.maxTrials parents toAvoid [] 0 w g (ms, w1, g1) hc
        (fun m hm => absurd hm (List.not_mem_nil m))
    cases ha : assignScores ms
        ((match cfg.oracle with
          | some f => (f (ms.map (fun x => x.sequence)) cfg.targetMol, w1)
          | none => npRand (ms.map (fun x => x.sequence)).length w1 : List ℚ × Rng)).1 with
    | error e =>
      rw [ha] at h
      exact Except.noConfusion h
    | ok scored =>
      rw [ha] at h
      cases h
      intro m hm
      have hmem : m ∈ scored := sortByScore_mem (List.mem_of_mem_take hm)
      obtain ⟨y, hy, hseq⟩ := assignScores_sequences ha m hmem
      rw [hseq]
      exact hms y hy

theorem seedGenLoop_spec (cfg : SamplingConfig) (counts : List (Nat × Nat)) :
    ∀ (fuel i : Nat) (parents : List Mutant) (selected : List String)
      (w g : Rng) (out : List Choice × Rng × Rng),
      seedGenLoop cfg counts fuel i parents selected w g = .ok out →
      (∀ c ∈ out.1, c.sequence ∉ selected) ∧
      (∀ c ∈ out.1, i + 1 ≤ c.mutationStep) ∧
      (∀ j, (out.1.filter (fun c => c.mutationStep = j + 1)).length ≤
        requestedAt counts j)
  | 0, i, parents, selected, w, g, out, h => by
    simp only [seedGenLoop] at h
    cases h
    refine ⟨fun c hc => absurd hc (List.not_mem_nil c),
      fun c hc => absurd hc (List.not_mem_nil c), fun j => ?_⟩
    simp
  | fuel + 1, i, parents, selected, w, g, out, h => by
    simp only [seedGenLoop] at h
    cases hog : oneGeneration cfg (max (requestedAt counts i) cfg.nParents)
        parents selected w g with
    | error e =>
      rw [hog] at h
      exact Except.noConfusion h
    | ok mw =>
      obtain ⟨mutants, w1, g1⟩ := mw
      rw [hog] at h
      simp only at h
      cases hrec : seedGenLoop cfg counts fuel (i + 1) (mutants.take cfg.nParents)
          (selected ++ (mutants.take (requestedAt counts i)).map (fun m => m.sequence))
          w1 g1 with
      | error e =>
        rw [hrec] at h
        exact Except.noConfusion h
      | ok rw2 =>
        obtain ⟨rest, w2, g2⟩ := rw2
        rw [hrec] at h
        cases h
        obtain ⟨ih1, ih2, ih3⟩ := seedGenLoop_spec cfg counts fuel (i + 1)
          (mutants.take cfg.nParents)
          (selected ++ (mutants.take (requestedAt counts i)).map (fun m => m.sequence))
          w1 g1 (rest, w2, g2) hrec
        dsimp only at ih1 ih2 ih3 ⊢
        have havoid := oneGeneration_avoid cfg _ parents selected w g _ hog
        have hemit : ∀ c ∈ (mutants.take (requestedAt counts i)).map (fun m =>
            createChoicePb m.sequence (i + 1) m.parent m.seed m.score cfg.modelName
              MethodType.simpleSampling), c.sequence ∉ selected ∧ c.mutationStep = i + 1 := by
          intro c hc
          obtain ⟨m, hm, hceq⟩ := List.mem_map.mp hc
          constructor
          · rw [← hceq]
            exact havoid m (List.mem_of_mem_take hm)
          · rw [← hceq]
            rfl
        refine ⟨?_, ?_, ?_⟩
        · intro c hc
          rcases List.mem_append.mp hc with hp | hr
          · exact (hemit c hp).1
          · intro hsel
            exact ih1 c hr (List.mem_append.mpr (Or.inl hsel))
        · intro c hc
          rcases List.mem_append.mp hc with hp | hr
          · rw [(hemit c hp).2]
          · exact Nat.le_of_succ_le (ih2 c hr)
        · intro j
          rw [List.filter_append, List.length_append]
          by_cases hij : j = i
          · subst hij
            have hrest0 : (rest.filter (fun c => c.mutationStep = j + 1)).length = 0 := by
              rw [List.length_eq_zero, List.filter_eq_nil_iff]
              intro c hc
              have := ih2 c hc
              simp only [decide_eq_true_eq]
              omega
            have hprot : (((mutants.take (requestedAt counts j)).map (fun m =>
                createChoicePb m.sequence (j + 1) m.parent m.seed m.score cfg.modelName
                  MethodType.simpleSampling)).filter
                    (fun c => c.mutationStep = j + 1)).length ≤
                requestedAt counts j := by
              calc _ ≤ ((mutants.take (requestedAt counts j)).map (fun m =>
                    createChoicePb m.sequence (j + 1) m.parent m.seed m.score
                      cfg.modelName MethodType.simpleSampling)).length :=
                  List.length_filter_le _ _
                _ = (mutants.take (requestedAt counts j)).length := List.length_map _ _
                _ ≤ requestedAt counts j := List.length_take_le _ _
            omega
          · have hprot0 : (((mutants.take (requestedAt counts i)).map (fun m =>
                createChoicePb m.sequence (i + 1) m.parent m.seed m.score cfg.modelName
                  MethodType.simpleSampling)).filter
                    (fun c => c.mutationStep = j + 1)).length = 0 := by
              rw [List.length_eq_zero, List.filter_eq_nil_iff]
              intro c hc
              have := (hemit c hc).2
              simp only [decide_eq_true_eq]
              omega
            have := ih3 j
            omega

/-- Claim C8: for every seed, `SamplingWalker.generate_one_seed_mutants`
never emits a record carrying the original seed sequence (the visited set
contains the seed from the start and every generation's mutants avoid the
visited set), and the records tagged with generation `i` (mutation step
`i + 1`) never number more than `requested_count_at(i)` — 0 when `i` was
not requested. -/
theorem sampling_never_emits_seed_and_respects_counts (cfg : SamplingConfig)
    (seed : String) (counts : List (Nat × Nat)) (w g : Rng)
    (out : List Choice × Rng × Rng)
    (h : generateOneSeedMutants cfg seed counts w g = .ok out) :
    (∀ c ∈ out.1, c.sequence ≠ seed) ∧
    (∀ i, (out.1.filter (fun c => c.mutationStep = i + 1)).length ≤
      requestedAt counts i) := by
  rw [generateOneSeedMutants] at h
  cases hm : maxKey counts with
  | error e =>
    rw [hm] at h
    exact Except.noConfusion h
  | ok mx =>
    rw [hm] at h
    obtain ⟨h1, _, h3⟩ := seedGenLoop_spec cfg counts (mx + 1) 0
      [⟨seed, seed, seed, none⟩] [seed] w g out h
    refine ⟨fun c hc heq => h1 c hc ?_, h3⟩
    rw [heq]
    exact List.mem_singleton.mpr rfl

theorem sampling_never_emits_seed_and_respects_counts_witness :
    generateOneSeedMutants cfgS2 "A" [(0, 1)] [0, 0] [] =
      .ok ([⟨"C", 1, "A", "A", some 1, "m", MethodType.simpleSampling⟩], [], []) ∧
    ((∀ c ∈ ((([⟨"C", 1, "A", "A", some 1, "m", MethodType.simpleSampling⟩],
        [], []) : List Choice × Rng × Rng)).1, c.sequence ≠ "A") ∧
     (∀ i, (((([⟨"C", 1, "A", "A", some 1, "m", MethodType.simpleSampling⟩],
        [], []) : List Choice × Rng × Rng)).1.filter
            (fun c => c.mutationStep = i + 1)).length ≤ requestedAt [(0, 1)] i)) :=
  ⟨by decide,
    sampling_never_emits_seed_and_respects_counts cfgS2 "A" [(0, 1)] [0, 0] []
      (([⟨"C", 1, "A", "A", some 1, "m", MethodType.simpleSampling⟩],
        [], []) : List Choice × Rng × Rng) (by decide)⟩

theorem npRand_length : ∀ (n : Nat) (w : Rng), (npRand n w).1.length = n
  | 0, _ => rfl
  | n + 1, w => by
    simp only [npRand, List.length_cons, npRand_length n w.next]

theorem collectLoop_ok (cfg : SamplingConfig) :
    ∀ (fuel : Nat) (parents : List Mutant) (toAvoid : List String)
      (ms : List Mutant) (att : Nat) (w g : Rng), parents ≠ [] →
      ∃ out, collectLoop cfg fuel parents toAvoid ms att w g = .ok out
  | 0, parents, toAvoid, ms, att, w, g, _ => ⟨(ms, w, g), rfl⟩
  | fuel + 1, parents, toAvoid, ms, att, w, g, hp => by
    simp only [collectLoop]
    by_cases h1 : ms.length < cfg.samplingLimit
    · rw [if_pos h1, if_neg (fun h0 => hp (List.length_eq_zero.mp h0))]
      exact collectLoop_ok cfg fuel parents toAvoid _ _ _ _ hp
    · rw [if_neg h1]
      exact ⟨(ms, w, g), rfl⟩

/-- Claim C9, counterexample: a generation that finds zero new mutants is
not absorbed silently.  With seed "A" over a one-symbol sequence space,
generation 0 emits all three possible mutants into the visited set,
generation 1 exhausts its trials finding nothing (the degraded-search
path), and generation 2 then crashes with an uncaught `ZeroDivisionError`
from `parents[attempts % len(parents)]` on the empty parent list — the
run aborts instead of completing all remaining generations. -/
theorem degraded_search_zeroDivision_crash :
    samplingGenerateMutants cfgS3 ["A"] [(0, 3), (2, 1)] [0, 0, 0, 1, 0, 2] [] =
      .error .zeroDivisionError := by
  decide

/-- Claim C9, amended: exhausting `max_trials` with fewer than
`sampling_limit` distinct mutants is indeed not an error within
`one_generation`: whenever the parent list is non-empty and the oracle
returns one score per sequence, `one_generation` returns normally with the
partial (possibly empty) set.  But if the set comes back empty, the next
generation's parent list is empty and its sampling loop (when
`sampling_limit > 0` and `max_trials > 0`) aborts the run with an uncaught
`ZeroDivisionError`, so the degraded condition can still fail the run
one generation later. -/
theorem oneGeneration_total_with_parents (cfg : SamplingConfig) (n : Nat)
    (parents : List Mutant) (toAvoid : List String) (w g : Rng)
    (hp : parents ≠ [])
    (ho : ∀ f, cfg.oracle = some f → ∀ xs t, (f xs t).length = xs.length) :
    ∃ r, oneGeneration cfg n parents toAvoid w g = .ok r := by
  obtain ⟨⟨ms, w1, g1⟩, hc⟩ :=
    collectLoop_ok cfg cfg.maxTrials parents toAvoid [] 0 w g hp
  rw [oneGeneration, hc]
  cases hor : cfg.oracle with
  | some f =>
    simp only [hor]
    have hlen : ms.length ≤
        (f (ms.map (fun x => x.sequence)) cfg.targetMol).length := by
      rw [ho f hor, List.length_map]
    rw [assignScores, if_pos hlen]
    exact ⟨_, rfl⟩
  | none =>
    simp only [hor]
    have hlen : ms.length ≤ (npRand (ms.map (fun x => x.sequence)).length w1).1.length := by
      rw [npRand_length, List.length_map]
    rw [assignScores, if_pos hlen]
    exact ⟨_, rfl⟩

theorem oneGeneration_total_with_parents_witness :
    (([⟨"A", "A", "A", none⟩] : List Mutant) ≠ [] ∧
     (∀ f, cfgS2.oracle = some f → ∀ xs t, (f xs t).length = xs.length)) ∧
    (∃ r, oneGeneration cfgS2 1 [⟨"A", "A", "A", none⟩] ["A"] [0, 0] [] = .ok r) :=
  ⟨⟨by decide, fun f hf xs t => by
      cases hf
      simp [oracleConst]⟩,
    oneGeneration_total_with_parents cfgS2 1 [⟨"A", "A", "A", none⟩] ["A"]
      [0, 0] [] (by decide) (fun f hf xs t => by
        cases hf
        simp [oracleConst])⟩

theorem randintStep_const (d : Nat) (g : Rng) : randintStep d d g = (d, g.next) := by
  simp [randintStep, Nat.add_sub_cancel_left, Nat.mod_one]

theorem collectLoop_global_indep (cfg : SamplingConfig)
    (hmm : cfg.minDistance = cfg.maxDistance) :
    ∀ (fuel : Nat) (parents : List Mutant) (toAvoid : List String)
      (ms : List Mutant) (att : Nat) (w g g' : Rng),
      (collectLoop cfg fuel parents toAvoid ms att w g).map (fun r => (r.1, r.2.1)) =
      (collectLoop cfg fuel parents toAvoid ms att w g').map (fun r => (r.1, r.2.1))
  | 0, _, _, _, _, _, _, _ => rfl
  | fuel + 1, parents, toAvoid, ms, att, w, g, g' => by
    simp only [collectLoop, hmm, randintStep_const]
    by_cases h1 : ms.length < cfg.samplingLimit
    · rw [if_pos h1, if_pos h1]
      by_cases h2 : parents.length = 0
      · rw [if_pos h2, if_pos h2]
      · rw [if_neg h2, if_neg h2]
        exact collectLoop_global_indep cfg hmm fuel parents toAvoid _ _ _
          (Rng.next g) (Rng.next g')
    · rw [if_neg h1, if_neg h1]
      rfl

theorem oneGeneration_global_indep (cfg : SamplingConfig)
    (hmm : cfg.minDistance = cfg.maxDistance) (n : Nat) (parents : List Mutant)
    (toAvoid : List String) (w g g' : Rng) :
    (oneGeneration cfg n parents toAvoid w g).map (fun r => (r.1, r.2.1)) =
    (oneGeneration cfg n parents toAvoid w g').map (fun r => (r.1, r.2.1)) := by
  have hcl := collectLoop_global_indep cfg hmm cfg.maxTrials parents toAvoid [] 0 w g g'
  rw [oneGeneration, oneGeneration]
  cases hc : collectLoop cfg cfg.maxTrials parents toAvoid [] 0 w g with
  | error e =>
    cases hc2 : collectLoop cfg cfg.maxTrials parents toAvoid [] 0 w g' with
    | error e2 =>
      rw [hc, hc2] at hcl
      simp only [Except.map, Except.error.injEq] at hcl
      subst hcl
      rfl
    | ok r2 =>
      rw [hc, hc2] at hcl
      simp only [Except.map] at hcl
      exact Except.noConfusion hcl
  | ok r1 =>
    obtain ⟨ms, w1, g1⟩ := r1
    cases hc2 : collectLoop cfg cfg.maxTrials parents toAvoid [] 0 w g' with
    | error e2 =>
      rw [hc, hc2] at hcl
      simp only [Except.map] at hcl
      exact Except.noConfusion hcl
    | ok r2 =>
      obtain ⟨ms2, w12, g12⟩ := r2
      rw [hc, hc2] at hcl
      simp only [Except.map, Except.ok.injEq, Prod.mk.injEq] at hcl
      obtain ⟨hms, hw⟩ := hcl
      subst hms
      subst hw
      simp only
      cases hA : assignScores ms
          ((match cfg.oracle with
            | some f => (f (ms.map (fun x => x.sequence)) cfg.targetMol, w1)
            | none => npRand (ms.map (fun x => x.sequence)).length w1 :
              List ℚ × Rng)).1 with
      | error e => rfl
      | ok scored => rfl

theorem seedGenLoop_global_indep (cfg : SamplingConfig) (counts : List (Nat × Nat))
    (hmm : cfg.minDistance = cfg.maxDistance) :
    ∀ (fuel i : Nat) (parents : List Mutant) (selected : List String) (w g g' : Rng),
      (seedGenLoop cfg counts fuel i parents selected w g).map (fun r => (r.1, r.2.1)) =
      (seedGenLoop cfg counts fuel i parents selected w g').map (fun r => (r.1, r.2.1))
  | 0, _, _, _, _, _, _ => rfl
  | fuel + 1, i, parents, selected, w, g, g' => by
    have hog := oneGeneration_global_indep cfg hmm
      (max (requestedAt counts i) cfg.nParents) parents selected w g g'
    simp only [seedGenLoop]
    cases h1 : oneGeneration cfg (max (requestedAt counts i) cfg.nParents)
        parents selected w g with
    | error e =>
      cases h2 : oneGeneration cfg (max (requestedAt counts i) cfg.nParents)
          parents selected w g' with
      | error e2 =>
        rw [h1, h2] at hog
        simp only [Except.map, Except.error.injEq] at hog
        subst hog
        rfl
      | ok r2 =>
        rw [h1, h2] at hog
        simp only [Except.map] at hog
        exact Except.noConfusion hog
    | ok r1 =>
      obtain ⟨mutants, w1, g1⟩ := r1
      cases h2 : oneGeneration cfg (max (requestedAt counts i) cfg.nParents)
          parents selected w g' with
      | error e2 =>
        rw [h1, h2] at hog
        simp only [Except.map] at hog
        exact Except.noConfusion hog
      | ok r2 =>
        obtain ⟨mutants2, w12, g12⟩ := r2
        rw [h1, h2] at hog
        simp only [Except.map, Except.ok.injEq, Prod.mk.injEq] at hog
        obtain ⟨hms, hw⟩ := hog
        subst hms
        subst hw
        simp only
        have ih := seedGenLoop_global_indep cfg counts hmm fuel (i + 1)
          (mutants.take cfg.nParents)
          (selected ++ (mutants.take (requestedAt counts i)).map (fun m => m.sequence))
          w1 g1 g12
        cases h3 : seedGenLoop cfg counts fuel (i + 1) (mutants.take cfg.nParents)
            (selected ++ (mutants.take (requestedAt counts i)).map (fun m => m.sequence))
            w1 g1 with
        | error e =>
          cases h4 : seedGenLoop cfg counts fuel (i + 1) (mutants.take cfg.nParents)
              (selected ++ (mutants.take (requestedAt counts i)).map (fun m => m.sequence))
              w1 g12 with
          | error e2 =>
            rw [h3, h4] at ih
            simp only [Except.map, Except.error.injEq] at ih
            subst ih
            rfl
          | ok r4 =>
            rw [h3, h4] at ih
            simp only [Except.map] at ih
            exact Except.noConfusion ih
        | ok r3 =>
          obtain ⟨rest, w2, g2⟩ := r3
          cases h4 : seedGenLoop cfg counts fuel (i + 1) (mutants.take cfg.nParents)
              (selected ++ (mutants.take (requestedAt counts i)).map (fun m => m.sequence))
              w1 g12 with
          | error e2 =>
            rw [h3, h4] at ih
            simp only [Except.map] at ih
            exact Except.noConfusion ih
          | ok r4 =>
            obtain ⟨rest2, w22, g22⟩ := r4
            rw [h3, h4] at ih
            simp only [Except.map, Except.ok.injEq, Prod.mk.injEq] at ih
            obtain ⟨hr, hw2⟩ := ih
            subst hr
            subst hw2
            rfl

theorem generateOneSeedMutants_global_indep (cfg : SamplingConfig)
    (hmm : cfg.minDistance = cfg.maxDistance) (seed : String)
    (counts : List (Nat × Nat)) (w g g' : Rng) :
    (generateOneSeedMutants cfg seed counts w g).map (fun r => (r.1, r.2.1)) =
    (generateOneSeedMutants cfg seed counts w g').map (fun r => (r.1, r.2.1)) := by
  rw [generateOneSeedMutants, generateOneSeedMutants]
  cases hm : maxKey counts with
  | error e => rfl
  | ok mx =>
    exact seedGenLoop_global_indep cfg counts hmm (mx + 1) 0
      [⟨seed, seed, seed, none⟩] [seed] w g g'

theorem samplingSeedsLoop_global_indep (cfg : SamplingConfig)
    (counts : List (Nat × Nat)) (hmm : cfg.minDistance = cfg.maxDistance) :
    ∀ (seeds : List String) (w g g' : Rng),
      (samplingSeedsLoop cfg counts seeds w g).map (fun r => (r.1, r.2.1)) =
      (samplingSeedsLoop cfg counts seeds w g').map (fun r => (r.1, r.2.1))
  | [], _, _, _ => rfl
  | s :: ss, w, g, g' => by
    have hone := generateOneSeedMutants_global_indep cfg hmm s counts w g g'
    simp only [samplingSeedsLoop]
    cases h1 : generateOneSeedMutants cfg s counts w g with
    | error e =>
      cases h2 : generateOneSeedMutants cfg s counts w g' with
      | error e2 =>
        rw [h1, h2] at hone
        simp only [Except.map, Except.error.injEq] at hone
        subst hone
        rfl
      | ok r2 =>
        rw [h1, h2] at hone
        simp only [Except.map] at hone
        exact Except.noConfusion hone
    | ok r1 =>
      obtain ⟨ps, w1, g1⟩ := r1
      cases h2 : generateOneSeedMutants cfg s counts w g' with
      | error e2 =>
        rw [h1, h2] at hone
        simp only [Except.map] at hone
        exact Except.noConfusion hone
      | ok r2 =>
        obtain ⟨ps2, w12, g12⟩ := r2
        rw [h1, h2] at hone
        simp only [Except.map, Except.ok.injEq, Prod.mk.injEq] at hone
        obtain ⟨hps, hw⟩ := hone
        subst hps
        subst hw
        simp only
        have ih := samplingSeedsLoop_global_indep cfg counts hmm ss w1 g1 g12
        cases h3 : samplingSeedsLoop cfg counts ss w1 g1 with
        | error e =>
          cases h4 : samplingSeedsLoop cfg counts ss w1 g12 with
          | error e2 =>
            rw [h3, h4] at ih
            simp only [Except.map, Except.error.injEq] at ih
            subst ih
            rfl
          | ok r4 =>
            rw [h3, h4] at ih
            simp only [Except.map] at ih
            exact Except.noConfusion ih
        | ok r3 =>
          obtain ⟨rest, w2, g2⟩ := r3
          cases h4 : samplingSeedsLoop cfg counts ss w1 g12 with
          | error e2 =>
            rw [h3, h4] at ih
            simp only [Except.map] at ih
            exact Except.noConfusion ih
          | ok r4 =>
            obtain ⟨rest2, w22, g22⟩ := r4
            rw [h3, h4] at ih
            simp only [Except.map, Except.ok.injEq, Prod.mk.injEq] at ih
            obtain ⟨hr, hw2⟩ := ih
            subst hr
            subst hw2
            rfl

theorem mutateChildren_global_indep (cfg : GeneticConfig)
    (hmm : cfg.minDistance = cfg.maxDistance) :
    ∀ (ps : List Mutant) (w g g' : Rng),
      (mutateChildren cfg ps w g).1 = (mutateChildren cfg ps w g').1 ∧
      (mutateChildren cfg ps w g).2.1 = (mutateChildren cfg ps w g').2.1
  | [], _, _, _ => ⟨rfl, rfl⟩
  | p :: ps, w, g, g' => by
    simp only [mutateChildren, hmm, randintStep_const]
    have ih := mutateChildren_global_indep cfg hmm ps
      (mutateSeq p.sequence cfg.maxDistance w).2 (Rng.next g) (Rng.next g')
    exact ⟨by rw [ih.1], by rw [ih.2]⟩

theorem makeChildren_global_indep (cfg : GeneticConfig)
    (hmm : cfg.minDistance = cfg.maxDistance) (pool : List Mutant) (w g g' : Rng) :
    (makeChildren cfg pool w g).map (fun r => (r.1, r.2.1)) =
    (makeChildren cfg pool w g').map (fun r => (r.1, r.2.1)) := by
  rw [makeChildren, makeChildren]
  by_cases hn : pool.any (fun x => x.score.isNone)
  · rw [if_pos hn, if_pos hn]
  · rw [if_neg hn, if_neg hn]
    cases hnp : npChoiceNoReplace pool cfg.nParents
        (selectionWeights (pool.map (fun x => x.score.getD 0))) w with
    | error e => rfl
    | ok pw =>
      obtain ⟨parents, w1⟩ := pw
      simp only
      obtain ⟨hseq, hw2⟩ := mutateChildren_global_indep cfg hmm parents w1 g g'
      rw [hseq, hw2]
      cases hbc : buildChildren parents (mutateChildren cfg parents w1 g').1
          (match cfg.oracle with
            | some f => (f (mutateChildren cfg parents w1 g').1 cfg.targetMol,
                (mutateChildren cfg parents w1 g').2.1)
            | none => npRand (mutateChildren cfg parents w1 g').1.length
                (mutateChildren cfg parents w1 g').2.1).1 with
      | error e => rfl
      | ok children => rfl

theorem geneticGenLoop_global_indep (cfg : GeneticConfig)
    (counts : List (Nat × Nat)) (hmm : cfg.minDistance = cfg.maxDistance) :
    ∀ (fuel i : Nat) (pop : List Mutant) (w g g' : Rng),
      (geneticGenLoop cfg counts fuel i pop w g).map
        (fun r => (r.1, r.2.1, r.2.2.1)) =
      (geneticGenLoop cfg counts fuel i pop w g').map
        (fun r => (r.1, r.2.1, r.2.2.1))
  | 0, _, _, _, _, _ => rfl
  | fuel + 1, i, pop, w, g, g' => by
    have hmc := makeChildren_global_indep cfg hmm (pop.take cfg.nPossibleParents) w g g'
    simp only [geneticGenLoop]
    cases h1 : makeChildren cfg (pop.take cfg.nPossibleParents) w g with
    | error e =>
      cases h2 : makeChildren cfg (pop.take cfg.nPossibleParents) w g' with
      | error e2 =>
        rw [h1, h2] at hmc
        simp only [Except.map, Except.error.injEq] at hmc
        subst hmc
        rfl
      | ok r2 =>
        rw [h1, h2] at hmc
        simp only [Except.map] at hmc
        exact Except.noConfusion hmc
    | ok r1 =>
      obtain ⟨children, w1, g1⟩ := r1
      cases h2 : makeChildren cfg (pop.take cfg.nPossibleParents) w g' with
      | error e2 =>
        rw [h1, h2] at hmc
        simp only [Except.map] at hmc
        exact Except.noConfusion hmc
      | ok r2 =>
        obtain ⟨children2, w12, g12⟩ := r2
        rw [h1, h2] at hmc
        simp only [Except.map, Except.ok.injEq, Prod.mk.injEq] at hmc
        obtain ⟨hch, hw⟩ := hmc
        subst hch
        subst hw
        simp only
        have ih := geneticGenLoop_global_indep cfg counts hmm fuel (i + 1)
          (sortByScore (pop ++ children)) w1 g1 g12
        cases h3 : geneticGenLoop cfg counts fuel (i + 1)
            (sortByScore (pop ++ children)) w1 g1 with
        | error e =>
          cases h4 : geneticGenLoop cfg counts fuel (i + 1)
              (sortByScore (pop ++ children)) w1 g12 with
          | error e2 =>
            rw [h3, h4] at ih
            simp only [Except.map, Except.error.injEq] at ih
            subst ih
            rfl
          | ok r4 =>
            rw [h3, h4] at ih
            simp only [Except.map] at ih
            exact Except.noConfusion ih
        | ok r3 =>
          obtain ⟨rest, popF, w2, g2⟩ := r3
          cases h4 : geneticGenLoop cfg counts fuel (i + 1)
              (sortByScore (pop ++ children)) w1 g12 with
          | error e2 =>
            rw [h3, h4] at ih
            simp only [Except.map] at ih
            exact Except.noConfusion ih
          | ok r4 =>
            obtain ⟨rest2, popF2, w22, g22⟩ := r4
            rw [h3, h4] at ih
            simp only [Except.map, Except.ok.injEq, Prod.mk.injEq] at ih
            obtain ⟨hr, hpf, hw2⟩ := ih
            subst hr
            subst hpf
            subst hw2
            rfl

/-- Claim C1, counterexample: the accepted output is not a function of the
seed sequences, constructor `random_seed` and oracle alone.  Both runs
below share the seed list, the walker's own entropy stream and a
deterministic oracle; they differ only in the state of the process-global
`random` module, which `one_generation` consumes through `random.randint`
for the mutation distance — and the accepted outputs differ ("CA" versus
"CC" at distance 1 versus 2 from the seed). -/
theorem samplingOutput_differs_with_global_rng_state :
    samplingGenerateMutants cfgS1 ["AA"] [(0, 1)] [0, 0, 0] [0] ≠
      samplingGenerateMutants cfgS1 ["AA"] [(0, 1)] [0, 0, 0] [1] := by
  decide

/-- Claim C1, amended: the accepted output of both walkers is a
deterministic function of the seeds, the walker's own seeded random
source, the oracle, and additionally the state of the process-global
`random` module, from which both walkers draw each mutation distance via
`random.randint`; all other randomness (positions, replacement bases,
fallback scores, parent selection) comes from the walker's own stream.  In
particular, whenever `min_distance = max_distance`, the distance draw is
constant and the global generator state is immaterial: identical
`(seeds, random_seed, oracle)` then yield identical output. -/
theorem generateMutants_global_rng_immaterial_when_min_eq_max
    (scfg : SamplingConfig) (gcfg : GeneticConfig)
    (hs : scfg.minDistance = scfg.maxDistance)
    (hg : gcfg.minDistance = gcfg.maxDistance)
    (seeds : List String) (counts : List (Nat × Nat)) (w g g' : Rng) :
    samplingGenerateMutants scfg seeds counts w g =
      samplingGenerateMutants scfg seeds counts w g' ∧
    geneticGenerateMutants gcfg seeds counts w g =
      geneticGenerateMutants gcfg seeds counts w g' := by
  constructor
  · have hloop := samplingSeedsLoop_global_indep scfg counts hs seeds w g g'
    rw [samplingGenerateMutants, samplingGenerateMutants]
    cases h1 : samplingSeedsLoop scfg counts seeds w g with
    | error e =>
      cases h2 : samplingSeedsLoop scfg counts seeds w g' with
      | error e2 =>
        rw [h1, h2] at hloop
        simp only [Except.map, Except.error.injEq] at hloop
        subst hloop
        rfl
      | ok r2 =>
        rw [h1, h2] at hloop
        simp only [Except.map] at hloop
        exact Except.noConfusion hloop
    | ok r1 =>
      cases h2 : samplingSeedsLoop scfg counts seeds w g' with
      | error e2 =>
        rw [h1, h2] at hloop
        simp only [Except.map] at hloop
        exact Except.noConfusion hloop
      | ok r2 =>
        rw [h1, h2] at hloop
        simp only [Except.map, Except.ok.injEq, Prod.mk.injEq] at hloop
        simp only [Except.map, hloop.1]
  · have hloop := geneticGenLoop_global_indep gcfg counts hg
    rw [geneticGenerateMutants, geneticGenerateMutants]
    cases hm : maxKey counts with
    | error e => rfl
    | ok mx =>
      simp only
      have hrun := hloop (mx + 1) 0
        (sortByScore ((seeds.zip ((match gcfg.oracle with
          | some f => (f seeds gcfg.targetMol, w)
          | none => npRand seeds.length w : List ℚ × Rng)).1).map
            (fun x : String × ℚ => (⟨x.1, x.1, x.1, some x.2⟩ : Mutant))))
        ((match gcfg.oracle with
          | some f => (f seeds gcfg.targetMol, w)
          | none => npRand seeds.length w : List ℚ × Rng)).2 g g'
      cases h1 : geneticGenLoop gcfg counts (mx + 1) 0
          (sortByScore ((seeds.zip ((match gcfg.oracle with
            | some f => (f seeds gcfg.targetMol, w)
            | none => npRand seeds.length w : List ℚ × Rng)).1).map
              (fun x : String × ℚ => (⟨x.1, x.1, x.1, some x.2⟩ : Mutant))))
          ((match gcfg.oracle with
            | some f => (f seeds gcfg.targetMol, w)
            | none => npRand seeds.length w : List ℚ × Rng)).2 g with
      | error e =>
        cases h2 : geneticGenLoop gcfg counts (mx + 1) 0
            (sortByScore ((seeds.zip ((match gcfg.oracle with
              | some f => (f seeds gcfg.targetMol, w)
              | none => npRand seeds.length w : List ℚ × Rng)).1).map
                (fun x : String × ℚ => (⟨x.1, x.1, x.1, some x.2⟩ : Mutant))))
            ((match gcfg.oracle with
              | some f => (f seeds gcfg.targetMol, w)
              | none => npRand seeds.length w : List ℚ × Rng)).2 g' with
        | error e2 =>
          rw [h1, h2] at hrun
          simp only [Except.map, Except.error.injEq] at hrun
          subst hrun
          rfl
        | ok r2 =>
          rw [h1, h2] at hrun
          simp only [Except.map] at hrun
          exact Except.noConfusion hrun
      | ok r1 =>
        cases h2 : geneticGenLoop gcfg counts (mx + 1) 0
            (sortByScore ((seeds.zip ((match gcfg.oracle with
              | some f => (f seeds gcfg.targetMol, w)
              | none => npRand seeds.length w : List ℚ × Rng)).1).map
                (fun x : String × ℚ => (⟨x.1, x.1, x.1, some x.2⟩ : Mutant))))
            ((match gcfg.oracle with
              | some f => (f seeds gcfg.targetMol, w)
              | none => npRand seeds.length w : List ℚ × Rng)).2 g' with
        | error e2 =>
          rw [h1, h2] at hrun
          simp only [Except.map] at hrun
          exact Except.noConfusion hrun
        | ok r2 =>
          rw [h1, h2] at hrun
          simp only [Except.map, Except.ok.injEq, Prod.mk.injEq] at hrun
          simp only [hrun.1]

theorem generateMutants_global_rng_immaterial_witness :
    (cfgS2.minDistance = cfgS2.maxDistance ∧
     cfgG1.minDistance = cfgG1.maxDistance) ∧
    (samplingGenerateMutants cfgS2 ["AA"] [(0, 1)] [0, 0, 0] [5] =
       samplingGenerateMutants cfgS2 ["AA"] [(0, 1)] [0, 0, 0] [7] ∧
     geneticGenerateMutants cfgG1 ["AA"] [(0, 1)] [0, 0, 0] [5] =
       geneticGenerateMutants cfgG1 ["AA"] [(0, 1)] [0, 0, 0] [7]) :=
  ⟨⟨rfl, rfl⟩,
    generateMutants_global_rng_immaterial_when_min_eq_max cfgS2 cfgG1 rfl rfl
      ["AA"] [(0, 1)] [0, 0, 0] [5] [7]⟩

/-- Claim C4, counterexample: with an empty `generation_counts`, both
walkers fail with the built-in `ValueError` raised by `max()` on an empty
sequence — not with a `ConfigurationError`, which does not exist in the
code. -/
theorem emptyCounts_raises_valueError_not_configurationError :
    geneticGenerateMutants cfgG1 ["A"] [] [] [] = .error .valueErrorMaxEmpty ∧
    samplingGenerateMutants cfgS2 ["A"] [] [] [] = .error .valueErrorMaxEmpty ∧
    Err.valueErrorMaxEmpty ≠ Err.configurationError := by
  decide

/-- Claim C4, amended: with an empty `generation_counts`,
`GeneticWalker.generate_mutants` (for any seed list) and
`SamplingWalker.generate_mutants` (whenever at least one seed is supplied)
fail before any generation runs, with the `ValueError` from `max()` of an
empty sequence; no dedicated `ConfigurationError` exists.  (SamplingWalker
with an empty seed list never reaches `max()` and returns an empty result
instead.) -/
theorem emptyCounts_valueError_before_generations (gcfg : GeneticConfig)
    (scfg : SamplingConfig) (seeds : List String) (s : String)
    (ss : List String) (w g w' g' : Rng) :
    geneticGenerateMutants gcfg seeds [] w g = .error .valueErrorMaxEmpty ∧
    samplingGenerateMutants scfg (s :: ss) [] w' g' = .error .valueErrorMaxEmpty := by
  constructor
  · cases h : gcfg.oracle <;>
      simp [geneticGenerateMutants, maxKey, h]
  · simp [samplingGenerateMutants, samplingSeedsLoop, generateOneSeedMutants,
      maxKey, Except.map]

/-- Claim C5, counterexample: the claim says a score list whose length
differs from the input count raises `ScoringMismatch` and aborts.  With an
oracle returning one extra score, `SamplingWalker` silently ignores the
extra score and completes the run normally. -/
theorem extraScores_accepted_silently :
    samplingGenerateMutants cfgS4 ["A"] [(0, 1)] [0, 0] [] =
      .ok [⟨"C", 1, "A", "A", some 1, "m", MethodType.simpleSampling⟩] := by
  decide

/-- Claim C5, amended: no `ScoringMismatch` error exists.  A score list
shorter than the batch makes the assignment loop fail with an uncaught
`IndexError` (aborting the run with no partial results): in
`SamplingWalker.one_generation` for a short oracle result, and in
`GeneticWalker.make_children` for a short child-score list.  A longer
score list is silently accepted (extra scores ignored). -/
theorem shortScores_indexError (cfg : SamplingConfig) (f : Oracle)
    (nSeq : Nat) (parents : List Mutant) (avoid : List String) (w g : Rng)
    (ms : List Mutant) (w1 g1 : Rng)
    (hf : cfg.oracle = some f)
    (hc : collectLoop cfg cfg.maxTrials parents avoid [] 0 w g = .ok (ms, w1, g1))
    (hlen : (f (ms.map (fun x => x.sequence)) cfg.targetMol).length < ms.length) :
    oneGeneration cfg nSeq parents avoid w g = .error .indexError ∧
    (∀ (ps : List Mutant) (cs : List String) (qs : List ℚ),
      qs.length < ps.length → buildChildren ps cs qs = .error .indexError) := by
  constructor
  · rw [oneGeneration, hc]
    simp only [hf]
    rw [assignScores, if_neg (by omega)]
  · intro ps cs qs hq
    rw [buildChildren, if_neg (by omega)]

theorem shortScores_indexError_witness :
    (cfgS5.oracle = some oracleNone ∧
     collectLoop cfgS5 cfgS5.maxTrials [⟨"A", "A", "A", none⟩] ["A"] [] 0 [0, 0] [] =
       .ok ([⟨"C", "A", "A", some 100000⟩], [], []) ∧
     (oracleNone (([⟨"C", "A", "A", some 100000⟩] : List Mutant).map
        (fun x => x.sequence)) cfgS5.targetMol).length <
       ([⟨"C", "A", "A", some 100000⟩] : List Mutant).length) ∧
    (oneGeneration cfgS5 1 [⟨"A", "A", "A", none⟩] ["A"] [0, 0] [] =
       .error .indexError ∧
     (∀ (ps : List Mutant) (cs : List String) (qs : List ℚ),
       qs.length < ps.length → buildChildren ps cs qs = .error .indexError)) :=
  ⟨⟨rfl, by decide, by decide⟩,
    shortScores_indexError cfgS5 oracleNone 1 [⟨"A", "A", "A", none⟩] ["A"]
      [0, 0] [] [⟨"C", "A", "A", some 100000⟩] [] [] rfl (by decide) (by decide)⟩

end Walkers
